import Mathlib

/-!
Verification of the sherpago generator (src/sherpago.go).

Go strings are modelled as `List Char` (one entry per rune) for the text
emitted by the generator, and as `List Nat` (one entry per byte) for the
identifier-derivation function `goLocalName`, whose source expression
`strings.ToLower(name[:1]) + name[1:]` slices a single *byte*.

Fallible Go code is modelled with `Except`/`Option`; a Go `panic` inside
`Generate` is modelled with an explicit panic type threaded through an
`EStateM` computation whose state carries the bytes already written to the
destination writer `out` (the source's `xprintf` writes directly to `out`,
not to the buffered writer `bout`, so written text survives a panic).
-/

namespace Sherpago

/-! ## Go string helpers (char level) -/

/-- Whitespace as decided by Go's `unicode.IsSpace` (the Unicode White_Space
property), used by `strings.TrimSpace`. -/
def goIsSpace (c : Char) : Bool :=
  c.toNat = 9 || c.toNat = 10 || c.toNat = 11 || c.toNat = 12 || c.toNat = 13 ||
  c.toNat = 32 || c.toNat = 0x85 || c.toNat = 0xA0 || c.toNat = 0x1680 ||
  (0x2000 ≤ c.toNat && c.toNat ≤ 0x200A) || c.toNat = 0x2028 || c.toNat = 0x2029 ||
  c.toNat = 0x202F || c.toNat = 0x205F || c.toNat = 0x3000

/-- Go `strings.TrimSpace`: drop leading and trailing Unicode whitespace. -/
def goTrimSpace (s : List Char) : List Char :=
  ((s.dropWhile goIsSpace).reverse.dropWhile goIsSpace).reverse

/-- Go `strings.Split(s, "\n")`: split on every newline; `n` newlines yield
`n+1` fields (the empty string yields one empty field). -/
def goSplitNL : List Char → List (List Char)
  | [] => [[]]
  | c :: rest =>
    let ps := goSplitNL rest
    if c = '\n' then [] :: ps
    else
      match ps with
      | [] => [[c]]
      | p :: ps2 => (c :: p) :: ps2

/-- `docLines` from src/sherpago.go: trim the whole string, return no lines
when the result is empty, otherwise split the trimmed string on newlines. -/
def docLines (s : List Char) : List (List Char) :=
  let t := goTrimSpace s
  if t = [] then [] else goSplitNL t

/-- Join a list of lines with newlines (inverse of `goSplitNL`). -/
def joinNL : List (List Char) → List Char
  | [] => []
  | [l] => l
  | l :: rest => l ++ '\n' :: joinNL rest

theorem goSplitNL_ne_nil (s : List Char) : goSplitNL s ≠ [] := by
  cases s with
  | nil => simp [goSplitNL]
  | cons c rest =>
    simp only [goSplitNL]
    split
    · simp
    · split
      · simp
      · simp

theorem joinNL_goSplitNL (s : List Char) : joinNL (goSplitNL s) = s := by
  induction s with
  | nil => rfl
  | cons c rest ih =>
    simp only [goSplitNL]
    split
    · rename_i hc
      subst hc
      have h := goSplitNL_ne_nil rest
      cases hps : goSplitNL rest with
      | nil => exact absurd hps h
      | cons p ps2 =>
        rw [hps] at ih
        cases ps2 with
        | nil => simp [joinNL, ← ih]
        | cons q qs => simp [joinNL, ← ih]
    · rename_i hc
      cases hps : goSplitNL rest with
      | nil => exact absurd hps (goSplitNL_ne_nil rest)
      | cons p ps2 =>
        rw [hps] at ih
        cases ps2 with
        | nil => simp [joinNL, ← ih]
        | cons q qs => simp [joinNL, ← ih]

/-! ## Type expression parser (`parseType`) and renderer (`GoType`) -/

/-- The parsed type representation (`sherpaType` with its five
implementations in src/sherpago.go). -/
inductive sherpaType where
  | base (name : String)
  | nullable (t : sherpaType)
  | array (t : sherpaType)
  | object (t : sherpaType)
  | ident (name : String)
deriving DecidableEq, Repr

/-- The base-type names recognized by `parseType`'s first switch case. -/
def baseNames : List String :=
  ["any", "bool", "int8", "uint8", "int16", "uint16", "int32", "uint32",
   "int64", "uint64", "int64s", "uint64s", "float32", "float64", "string",
   "timestamp"]

/-- The `MalformedType` failure raised by `parseType` via `checkOK`:
a message and the offending (sub)sequence of tokens. -/
structure MalformedType where
  msg : String
  seen : List String
deriving DecidableEq, Repr

/-- `parseType` from src/sherpago.go: recursive descent over the token
sequence, one token per level. -/
def parseType : List String → Except MalformedType sherpaType
  | [] => .error ⟨"need at least one element", []⟩
  | s :: tokens =>
    if s ∈ baseNames then
      match tokens with
      | [] => .ok (.base s)
      | _ => .error ⟨"leftover tokens after base type", tokens⟩
    else if s = "nullable" then
      match parseType tokens with
      | .ok t => .ok (.nullable t)
      | .error e => .error e
    else if s = "[]" then
      match parseType tokens with
      | .ok t => .ok (.array t)
      | .error e => .error e
    else if s = "\x7b\x7d" then
      match parseType tokens with
      | .ok t => .ok (.object t)
      | .error e => .error e
    else
      match tokens with
      | [] => .ok (.ident s)
      | _ => .error ⟨"leftover tokens after identifier type", tokens⟩

/-- The `GoType` methods of the five `sherpaType` implementations. -/
def GoType : sherpaType → String
  | .base n =>
    if n = "any" then "interface\x7b\x7d"
    else if n = "timestamp" then "time.Time"
    else if n = "int64s" then "int64"
    else if n = "uint64s" then "uint64"
    else n
  | .nullable t => "*" ++ GoType t
  | .array t => "[]" ++ GoType t
  | .object t => "map[string]" ++ GoType t
  | .ident n => n

/-- A wrapper token: consumed and recursed past by `parseType`. -/
def isWrapper (s : String) : Bool :=
  s = "nullable" || s = "[]" || s = "\x7b\x7d"

/-- Whether an `Except` value is an error. -/
def isErr {ε α : Type} : Except ε α → Bool
  | .error _ => true
  | .ok _ => false

theorem mem_baseNames_not_wrapper : ∀ s ∈ baseNames, isWrapper s = false := by decide

/-- C2: `parseType` fails exactly when stripping the leading wrapper tokens
leaves the empty sequence, or leaves a terminal token followed by leftover
tokens; every other sequence parses successfully. -/
theorem c2_parseType_fails_iff (tokens : List String) :
    isErr (parseType tokens) = true ↔
      (tokens.dropWhile isWrapper = [] ∨ 2 ≤ (tokens.dropWhile isWrapper).length) := by
  induction tokens with
  | nil => simp [parseType, isErr, List.dropWhile]
  | cons s rest ih =>
    by_cases hb : s ∈ baseNames
    · have hw : isWrapper s = false := mem_baseNames_not_wrapper s hb
      cases rest with
      | nil => simp [parseType, hb, isErr, List.dropWhile, hw]
      | cons t ts => simp [parseType, hb, isErr, List.dropWhile, hw]
    · by_cases h1 : s = "nullable"
      · subst h1
        have hred : isErr (parseType ("nullable" :: rest)) = isErr (parseType rest) := by
          simp only [parseType]
          rw [if_neg hb, if_pos trivial]
          cases parseType rest <;> simp [isErr]
        rw [hred]
        simpa [List.dropWhile_cons, (by decide : isWrapper "nullable" = true)] using ih
      · by_cases h2 : s = "[]"
        · subst h2
          have hred : isErr (parseType ("[]" :: rest)) = isErr (parseType rest) := by
            simp only [parseType]
            rw [if_neg hb, if_neg (by decide : ¬("[]" : String) = "nullable"), if_pos trivial]
            cases parseType rest <;> simp [isErr]
          rw [hred]
          simpa [List.dropWhile_cons, (by decide : isWrapper "[]" = true)] using ih
        · by_cases h3 : s = "\x7b\x7d"
          · subst h3
            have hred : isErr (parseType ("\x7b\x7d" :: rest)) = isErr (parseType rest) := by
              simp only [parseType]
              rw [if_neg hb, if_neg (by decide : ¬("\x7b\x7d" : String) = "nullable"),
                if_neg (by decide : ¬("\x7b\x7d" : String) = "[]"), if_pos trivial]
              cases parseType rest <;> simp [isErr]
            rw [hred]
            simpa [List.dropWhile_cons, (by decide : isWrapper "\x7b\x7d" = true)] using ih
          · have hw : isWrapper s = false := by
              simp [isWrapper, h1, h2, h3]
            cases rest with
            | nil =>
              have hok : parseType [s] = .ok (.ident s) := by
                simp only [parseType]
                rw [if_neg hb, if_neg h1, if_neg h2, if_neg h3]
              simp [hok, isErr, List.dropWhile_cons, hw]
            | cons t ts =>
              have herr : parseType (s :: t :: ts) =
                  .error ⟨"leftover tokens after identifier type", t :: ts⟩ := by
                simp only [parseType]
                rw [if_neg hb, if_neg h1, if_neg h2, if_neg h3]
              simp [herr, isErr, List.dropWhile_cons, hw]

instance {ε α : Type} [DecidableEq ε] [DecidableEq α] : DecidableEq (Except ε α) := fun x y =>
  match x, y with
  | .ok a, .ok b =>
    if h : a = b then .isTrue (by rw [h]) else .isFalse (by intro hc; cases hc; exact h rfl)
  | .ok _, .error _ => .isFalse (by intro hc; cases hc)
  | .error _, .ok _ => .isFalse (by intro hc; cases hc)
  | .error e, .error f =>
    if h : e = f then .isTrue (by rw [h]) else .isFalse (by intro hc; cases hc; exact h rfl)

/-- C3: the token sequence `["nullable", "[]", "string"]` parses to
Nullable(Array(Base("string"))) and renders as `*[]string`; the `Base`
lookup table maps exactly any, timestamp, int64s and uint64s, and passes
every other recognized base name through verbatim. -/
theorem c3_nullable_array_string :
    parseType ["nullable", "[]", "string"] =
      .ok (.nullable (.array (.base "string"))) ∧
    GoType (.nullable (.array (.base "string"))) = "*[]string" ∧
    GoType (.base "any") = "interface\x7b\x7d" ∧
    GoType (.base "timestamp") = "time.Time" ∧
    GoType (.base "int64s") = "int64" ∧
    GoType (.base "uint64s") = "uint64" ∧
    ((baseNames.filter (fun n =>
        n ∉ (["any", "timestamp", "int64s", "uint64s"] : List String))).all
      (fun n => GoType (.base n) == n)) = true := by
  decide

/-- C5 counterexample: `docLines "a\n\nb"` produces the line `""`, which is
empty, so not every produced line is non-empty (nor individually trimmed):
interior blank lines survive because only the whole string is trimmed. -/
theorem c5_counterexample :
    docLines ("a\n\nb".data) = ["a".data, [], "b".data] ∧
    [] ∈ docLines ("a\n\nb".data) := by
  decide

/-- C5 amended: `docLines` trims leading/trailing whitespace from the whole
string and splits the result on line breaks (joining the produced lines with
line breaks reconstructs the whole trimmed string); an all-whitespace input
yields zero lines. -/
theorem c5_docLines_amended (s : List Char) :
    (s.all goIsSpace = true → docLines s = []) ∧
    (goTrimSpace s ≠ [] →
      joinNL (docLines s) = goTrimSpace s ∧ docLines s ≠ []) := by
  constructor
  · intro h
    have h1 : s.dropWhile goIsSpace = [] := by
      rw [List.dropWhile_eq_nil_iff]
      intro x hx
      exact List.all_eq_true.mp h x hx
    have h2 : goTrimSpace s = [] := by
      simp [goTrimSpace, h1]
    simp [docLines, h2]
  · intro h
    refine ⟨?_, ?_⟩
    · simp only [docLines, if_neg h]
      exact joinNL_goSplitNL (goTrimSpace s)
    · simp only [docLines, if_neg h]
      exact goSplitNL_ne_nil (goTrimSpace s)

/-- C5 witness: an all-whitespace input yields zero lines, and joining the
lines of `"a\nb"` reconstructs its trimmed text. -/
theorem c5_docLines_amended_witness :
    docLines ("  \t ".data) = [] ∧
    joinNL (docLines ("a\nb".data)) = goTrimSpace ("a\nb".data) :=
  ⟨(c5_docLines_amended ("  \t ".data)).1 (by decide),
   ((c5_docLines_amended ("a\nb".data)).2 (by decide)).1⟩

/-! ## Identifier derivation (byte level)

`goLocalName` computes `strings.ToLower(name[:1]) + name[1:]`, where
`name[:1]` slices the first *byte*; strings are therefore modelled as byte
lists here. -/

/-- Go `strings.ToLower` applied to the one-byte string `[b]`: an ASCII
upper-case letter is lowered; any other ASCII byte is unchanged; a byte
`≥ 0x80` alone is invalid UTF-8 and is replaced by U+FFFD (EF BF BD). -/
def goToLower1 (b : Nat) : List Nat :=
  if 65 ≤ b ∧ b ≤ 90 then [b + 32]
  else if b < 128 then [b]
  else [0xEF, 0xBF, 0xBD]

/-- `goLocalName` from src/sherpago.go:
`strings.ToLower(name[:1]) + name[1:]`. On the empty string the slice
`name[:1]` panics (slice bounds out of range), modelled as `none`. -/
def goLocalName : List Nat → Option (List Nat)
  | [] => none
  | b :: rest => some (goToLower1 b ++ rest)

/-- Modelled from the spec: "Local form: lower-case the first character,
leave the remainder unchanged" (§4.2), with lowering of the ASCII alphabet
of schema identifiers. -/
def specLocalName : List Nat → List Nat
  | [] => []
  | b :: rest => (if 65 ≤ b ∧ b ≤ 90 then b + 32 else b) :: rest

/-- C9 counterexample: the derivation is not total — on the empty name the
slice `name[:1]` panics (`none`); and on a name starting with a non-ASCII
character (here "É", bytes C3 89) the first character is not lower-cased but
replaced by U+FFFD, because only its first byte is sliced. -/
theorem c9_counterexample :
    goLocalName [] = none ∧
    goLocalName [0xC3, 0x89] = some [0xEF, 0xBF, 0xBD, 0x89] ∧
    goLocalName [0xC3, 0x89] ≠ some [0xC3, 0xA9] := by
  decide

/-- C9 amended: on every non-empty name whose first character is ASCII, the
local-identifier derivation is defined and lower-cases the first character,
leaving the remainder unchanged. -/
theorem c9_localName_amended (b : Nat) (rest : List Nat) (hb : b < 128) :
    goLocalName (b :: rest) = some (specLocalName (b :: rest)) := by
  by_cases h : 65 ≤ b ∧ b ≤ 90
  · simp [goLocalName, specLocalName, goToLower1, h]
  · simp [goLocalName, specLocalName, goToLower1, h, hb]

/-- C9 witness: the name "Hi" (bytes 72 105) derives to "hi". -/
theorem c9_localName_amended_witness :
    goLocalName [72, 105] = some (specLocalName [72, 105]) :=
  c9_localName_amended 72 [105] (by decide)

/-! ## Schema model (the sherpadoc fields read by the generator) -/

structure Field where
  Name : String
  Docs : String
  Typewords : List String
deriving DecidableEq, Repr

structure Struct where
  Name : String
  Docs : String
  Fields : List Field
deriving DecidableEq, Repr

structure IntValue where
  Name : String
  Value : Int
  Docs : String
deriving DecidableEq, Repr

structure Ints where
  Name : String
  Docs : String
  Values : List IntValue
deriving DecidableEq, Repr

structure StringValue where
  Name : String
  Value : String
  Docs : String
deriving DecidableEq, Repr

structure Strings where
  Name : String
  Docs : String
  Values : List StringValue
deriving DecidableEq, Repr

structure Arg where
  Name : String
  Typewords : List String
deriving DecidableEq, Repr

structure Function where
  Name : String
  Docs : String
  Params : List Arg
  Returns : List Arg
deriving DecidableEq, Repr

/-- `sherpadoc.Section` (the fields the generator reads), a recursive tree. -/
inductive Section where
  | mk (SherpadocVersion : Int) (Name : String) (Docs : String)
       (Functions : List Function) (Sections : List Section)
       (Structs : List Struct) (Ints : List Ints) (Strings : List Strings)

def Section.SherpadocVersion : Section → Int
  | .mk v _ _ _ _ _ _ _ => v

def Section.Name : Section → String
  | .mk _ n _ _ _ _ _ _ => n

def Section.Docs : Section → String
  | .mk _ _ d _ _ _ _ _ => d

def Section.Functions : Section → List Function
  | .mk _ _ _ f _ _ _ _ => f

def Section.Sections : Section → List Section
  | .mk _ _ _ _ s _ _ _ => s

def Section.Structs : Section → List Struct
  | .mk _ _ _ _ _ t _ _ => t

def Section.Ints : Section → List Ints
  | .mk _ _ _ _ _ _ i _ => i

def Section.Strings : Section → List Strings
  | .mk _ _ _ _ _ _ _ s => s

/-! ## The generation monad

`Generate` panics internally: `genError` panics are recovered and returned
as errors, any other panic propagates. State carries the characters already
written to the destination writer `out` — `xprintf` in the source prints to
`out` directly (not to the buffered writer `bout`), so text written before a
panic is visible to the caller. `wf` is the destination-writer oracle:
`wf n = false` makes the `n`-th `Fprintf` fail (a write error). -/

/-- Panics that are not `genError` values: Go runtime errors from slicing
`name[:1]` of an empty name, or indexing `f.Typewords[len(f.Typewords)-1]`
of an empty slice. -/
inductive OtherPanic where
  | sliceBounds
  | indexBounds
deriving DecidableEq, Repr

/-- The failure payloads wrapped in `genError` by the source. -/
inductive GenErrKind where
  | jsonErr
  | versionErr (got : Int)
  | checkErr (msg : String)
  | typeErr (what : String) (e : MalformedType)
  | writeErr
deriving DecidableEq, Repr

inductive GenPanic where
  | genErr (k : GenErrKind)
  | other (p : OtherPanic)
deriving DecidableEq, Repr

structure GSt where
  out : List Char
  wn : Nat
  wf : Nat → Bool

abbrev GenM (α : Type) := EStateM GenPanic GSt α

/-- `xprintf`: `fmt.Fprintf(out, ...)`, panicking `genError` on a write
error (modelled by the oracle `wf` refusing the `wn`-th write). -/
def xprintf (s : List Char) : GenM Unit := fun st =>
  if st.wf st.wn then .ok () ⟨st.out ++ s, st.wn + 1, st.wf⟩
  else .error (.genErr .writeErr) ⟨st.out, st.wn + 1, st.wf⟩

/-- Evaluate a name derivation, turning the slice-bounds panic on an empty
name into the corresponding non-`genError` runtime panic. -/
def liftName (o : Option String) : GenM String :=
  match o with
  | some s => pure s
  | none => fun st => .error (.other .sliceBounds) st

/-- `f.Typewords[len(f.Typewords)-1]`: the last type token, an
index-out-of-range runtime panic when the slice is empty. -/
def liftLast (tws : List String) : GenM String :=
  match tws.getLast? with
  | some w => pure w
  | none => fun st => .error (.other .indexBounds) st

/-- `goType`: parse the tokens and render; a parse failure is the
`genError` panic raised by `checkOK` inside `parseType`. -/
def goTypeM (what : String) (tws : List String) : GenM String :=
  match parseType tws with
  | .ok t => pure (GoType t)
  | .error e => fun st => .error (.genErr (.typeErr what e)) st

/-- ASCII upper-casing of one character (`strings.ToUpper(name[:1])` for the
ASCII identifier alphabet of schema names). -/
def asciiUpper (c : Char) : Char :=
  if 97 ≤ c.toNat ∧ c.toNat ≤ 122 then Char.ofNat (c.toNat - 32) else c

/-- ASCII lower-casing of one character. -/
def asciiLower (c : Char) : Char :=
  if 65 ≤ c.toNat ∧ c.toNat ≤ 90 then Char.ofNat (c.toNat + 32) else c

/-- `goExportedName`: `lintName(strings.ToUpper(name[:1]) + name[1:])`.
`lintName` lives outside src (a golint-derived initialism pass), so it is a
parameter of the model. `none` models the slice panic on an empty name.
Char-level counterpart of the byte-level `goLocalName` model; they coincide
on ASCII-leading names, the schema identifier alphabet. -/
def goExportedName (lintName : String → String) (name : String) : Option String :=
  match name.data with
  | [] => none
  | c :: rest => some (lintName ⟨asciiUpper c :: rest⟩)

/-- `goLocalName` at char level, as used by the function emitter. -/
def goLocalNameStr (name : String) : Option String :=
  match name.data with
  | [] => none
  | c :: rest => some ⟨asciiLower c :: rest⟩

/-- The loop body of `xprintMultiline`: print each line as an
indented `//` comment line. -/
def printLines (indent : String) : List (List Char) → GenM Unit
  | [] => pure ()
  | l :: rest => do
    xprintf (indent.data ++ "// ".data ++ l ++ ['\n'])
    printLines indent rest

/-- `xprintMultiline` from src/sherpago.go: with a single line and
`always = false` print nothing; otherwise print every line as a leading
comment block. Returns the lines either way. -/
def xprintMultiline (indent : String) (docs : String) (always : Bool) :
    GenM (List (List Char)) := do
  let lines := docLines docs.data
  if lines.length = 1 ∧ always = false then
    pure lines
  else do
    printLines indent lines
    pure lines

/-- `xprintSingleline` from src/sherpago.go: print a trailing inline
comment only when there is exactly one line. -/
def xprintSingleline (lines : List (List Char)) : GenM Unit :=
  match lines with
  | [l] => xprintf ("  // ".data ++ l)
  | _ => pure ()

/-! ## Section emitter -/

mutual
/-- `generateSectionDocs`: the section's docs (always as a block), then each
subsection under a heading whose `#` count is its depth. -/
def genSecDocs : Section → Nat → GenM Unit
  | .mk _ _ docs _ secs _ _ _, depth => do
    _ ← xprintMultiline "" docs true
    genSubsecsDocs secs (depth + 1)

def genSubsecsDocs : List Section → Nat → GenM Unit
  | [], _ => pure ()
  | sub :: rest, depth => do
    xprintf ("//\n// ".data ++ List.replicate depth '#' ++ " ".data ++
      (Section.Name sub).data ++ "\n//\n".data)
    genSecDocs sub depth
    genSubsecsDocs rest depth
end

/-- The fixed call primitive emitted verbatim after the client scaffolding
(the tail of the big `xprintf` template in `Generate`). -/
def callPrimitiveText : String :=
  "func (c *Client) call(ctx context.Context, functionName string, params []interface\x7b\x7d, result []interface\x7b\x7d) error \x7b\n" ++
  "\tsherpaReq := map[string]interface\x7b\x7d\x7b\n" ++
  "\t\t\"params\": params,\n" ++
  "\t\x7d\n" ++
  "\tbuf := &bytes.Buffer\x7b\x7d\n" ++
  "\terr := json.NewEncoder(buf).Encode(sherpaReq)\n" ++
  "\tif err != nil \x7b\n" ++
  "\t\treturn &sherpa.Error\x7bCode: \"sherpa:parameter encode error\", Message: \"encoding request parameters: \" + err.Error()\x7d\n" ++
  "\t\x7d\n" ++
  "\n" ++
  "\turl := c.BaseURL + functionName\n" ++
  "\treq, err := http.NewRequest(\"POST\", url, buf)\n" ++
  "\tif err != nil \x7b\n" ++
  "\t\treturn &sherpa.Error\x7bCode: \"sherpa:http\", Message: \"constructing request: \" + err.Error()\x7d\n" ++
  "\t\x7d\n" ++
  "\treq = req.WithContext(ctx)\n" ++
  "\treq.Header.Set(\"Content-Type\", \"application/json; charset=utf-8\")\n" ++
  "\n" ++
  "\tresp, err := c.Client.Do(req)\n" ++
  "\tif err != nil \x7b\n" ++
  "\t\treturn &sherpa.Error\x7bCode: sherpa.SherpaHTTPError, Message: \"sending POST request: \" + err.Error()\x7d\n" ++
  "\t\x7d\n" ++
  "\tdefer resp.Body.Close()\n" ++
  "\n" ++
  "\tswitch resp.StatusCode \x7b\n" ++
  "\tcase 200:\n" ++
  "\t\tvar response struct \x7b\n" ++
  "\t\t\tResult json.RawMessage \"json:\\\"result\\\"\"\n" ++
  "\t\t\tError  *sherpa.Error   \"json:\\\"error\\\"\"\n" ++
  "\t\t\x7d\n" ++
  "\t\terr = json.NewDecoder(resp.Body).Decode(&response)\n" ++
  "\t\tif err != nil \x7b\n" ++
  "\t\t\treturn &sherpa.Error\x7bCode: sherpa.SherpaBadResponse, Message: \"parsing response: \" + err.Error()\x7d\n" ++
  "\t\t\x7d\n" ++
  "\t\tif response.Error != nil \x7b\n" ++
  "\t\t\treturn response.Error\n" ++
  "\t\t\x7d\n" ++
  "\n" ++
  "\t\tvar r interface\x7b\x7d = &result\n" ++
  "\t\tif len(result) == 1 \x7b\n" ++
  "\t\t\tr = &result[0]\n" ++
  "\t\t\x7d\n" ++
  "\t\terr = json.Unmarshal(response.Result, r)\n" ++
  "\t\tif err != nil \x7b\n" ++
  "\t\t\treturn &sherpa.Error\x7bCode: sherpa.SherpaBadResponse, Message: \"parsing result: \" + err.Error()\x7d\n" ++
  "\t\t\x7d\n" ++
  "\t\treturn nil\n" ++
  "\tcase 404:\n" ++
  "\t\treturn &sherpa.Error\x7bCode: sherpa.SherpaBadFunction, Message: \"no such function\"\x7d\n" ++
  "\tdefault:\n" ++
  "\t\treturn &sherpa.Error\x7bCode: sherpa.SherpaHTTPError, Message: \"HTTP error from server: \" + resp.Status\x7d\n" ++
  "\t\x7d\n" ++
  "\x7d\n" ++
  "\n"

/-- The package/import/Client scaffolding template of the big `xprintf`,
with `packageName` and `baseURL` substituted for its two `%s` verbs. -/
def preambleText (packageName baseURL : String) : String :=
  "package " ++ packageName ++ "\n\nimport (\n\t\"bytes\"\n\t\"context\"\n" ++
  "\t\"encoding/json\"\n\t\"net/http\"\n\t\"time\"\n\n\t\"github.com/mjl-/sherpa\"\n)\n\n" ++
  "var _ time.Time // in case \"timestamp\" is used\n\n" ++
  "type Client struct \x7b\n\tBaseURL string\n\tClient *http.Client\n\x7d\n\n" ++
  "func NewClient() *Client \x7b\n\treturn &Client\x7b\n\t\tBaseURL: \"" ++ baseURL ++
  "\",\n\t\tClient: http.DefaultClient,\n\t\x7d\n\x7d\n\n" ++
  callPrimitiveText

/-- The json-tag block of one struct field (src lines 250–257): emitted
only when the exported name differs from the schema name or the `,string`
hint is needed; the wire name only in the former case. Written with
explicit binds (identical emission to the source's nested `if`s). -/
def genFieldTag (gname fName jsonStr : String) : GenM Unit :=
  if gname ≠ fName ∨ jsonStr ≠ "" then
    xprintf (" `json:\"").data >>= fun _ =>
    (if gname ≠ fName then xprintf fName.data else pure ()) >>= fun _ =>
    xprintf jsonStr.data >>= fun _ =>
    xprintf ("\"`").data
  else pure ()

/-- One struct field of `generateTypes`: adaptive docs, the field line with
its type, the json tag when the exported name differs or the type needs the
`,string` hint, and a trailing single-line doc comment. -/
def genStructField (lintName : String → String) (tName : String) (f : Field) : GenM Unit := do
  let lines ← xprintMultiline "\t" f.Docs false
  let what := "field " ++ f.Name ++ " for type " ++ tName
  let lastWord ← liftLast f.Typewords
  let jsonStr := if lastWord = "int64s" ∨ lastWord = "uint64s" then ",string" else ""
  let goFieldName ← liftName (goExportedName lintName f.Name)
  let typ ← goTypeM what f.Typewords
  xprintf ("\t".data ++ goFieldName.data ++ " ".data ++ typ.data)
  genFieldTag goFieldName f.Name jsonStr
  xprintSingleline lines
  xprintf ['\n']

def genFields (lintName : String → String) (tName : String) : List Field → GenM Unit
  | [] => pure ()
  | f :: rest => do
    genStructField lintName tName f
    genFields lintName tName rest

def genStruct (lintName : String → String) (t : Struct) : GenM Unit := do
  _ ← xprintMultiline "" t.Docs true
  let tn ← liftName (goExportedName lintName t.Name)
  xprintf ("type ".data ++ tn.data ++ " struct \x7b\n".data)
  genFields lintName t.Name t.Fields
  xprintf "\x7d\n\n".data

def genStructs (lintName : String → String) : List Struct → GenM Unit
  | [] => pure ()
  | t :: rest => do
    genStruct lintName t
    genStructs lintName rest

def genIntValue (lintName : String → String) (typeName : String) (v : IntValue) : GenM Unit := do
  let lines ← xprintMultiline "\t" v.Docs false
  let vn ← liftName (goExportedName lintName v.Name)
  xprintf ("\t".data ++ vn.data ++ " ".data ++ typeName.data ++ " = ".data ++
    (toString v.Value).data)
  xprintSingleline lines
  xprintf ['\n']

def genIntValues (lintName : String → String) (typeName : String) : List IntValue → GenM Unit
  | [] => pure ()
  | v :: rest => do
    genIntValue lintName typeName v
    genIntValues lintName typeName rest

/-- One `sec.Ints` declaration: the named int type, then (only when at
least one value is declared) a const block with every declared value. -/
def genIntEnum (lintName : String → String) (t : Ints) : GenM Unit := do
  _ ← xprintMultiline "" t.Docs true
  let typeName ← liftName (goExportedName lintName t.Name)
  xprintf ("type ".data ++ typeName.data ++ " int\n".data)
  match t.Values with
  | [] => pure ()
  | _ => do
    xprintf "const (\n".data
    genIntValues lintName typeName t.Values
    xprintf ")\n\n".data

def genIntEnums (lintName : String → String) : List Ints → GenM Unit
  | [] => pure ()
  | t :: rest => do
    genIntEnum lintName t
    genIntEnums lintName rest

def hexDigit (n : Nat) : Char :=
  if n < 10 then Char.ofNat (48 + n) else Char.ofNat (87 + n)

/-- `strconv.Quote` of one character: ASCII-exact; Unicode non-printables
above U+009F are kept verbatim here (Go escapes those too, but they cannot
occur in schema literals used by the claims; both sides of the enum
refinement use this same quoting). -/
def quoteChar (c : Char) : List Char :=
  if c = '"' then ['\\', '"']
  else if c = '\\' then ['\\', '\\']
  else if 0x20 ≤ c.toNat ∧ c.toNat ≤ 0x7E then [c]
  else if c.toNat = 7 then ['\\', 'a']
  else if c.toNat = 8 then ['\\', 'b']
  else if c.toNat = 9 then ['\\', 't']
  else if c.toNat = 10 then ['\\', 'n']
  else if c.toNat = 11 then ['\\', 'v']
  else if c.toNat = 12 then ['\\', 'f']
  else if c.toNat = 13 then ['\\', 'r']
  else if c.toNat < 0x20 ∨ c.toNat = 0x7F then
    ['\\', 'x', hexDigit (c.toNat / 16), hexDigit (c.toNat % 16)]
  else if c.toNat ≤ 0x9F then
    ['\\', 'u', '0', '0', hexDigit (c.toNat / 16 % 16), hexDigit (c.toNat % 16)]
  else [c]

/-- Go `strconv.Quote`. -/
def goQuote (s : String) : List Char :=
  '"' :: ((s.data.map quoteChar).flatten ++ ['"'])

def genStringValue (lintName : String → String) (typeName : String) (v : StringValue) :
    GenM Unit := do
  let lines ← xprintMultiline "\t" v.Docs false
  let vn ← liftName (goExportedName lintName v.Name)
  xprintf ("\t".data ++ vn.data ++ " ".data ++ typeName.data ++ " = ".data ++ goQuote v.Value)
  xprintSingleline lines
  xprintf ['\n']

def genStringValues (lintName : String → String) (typeName : String) :
    List StringValue → GenM Unit
  | [] => pure ()
  | v :: rest => do
    genStringValue lintName typeName v
    genStringValues lintName typeName rest

/-- One `sec.Strings` declaration, same shape as `genIntEnum` with quoted
text literals. -/
def genStringEnum (lintName : String → String) (t : Strings) : GenM Unit := do
  _ ← xprintMultiline "" t.Docs true
  let typeName ← liftName (goExportedName lintName t.Name)
  xprintf ("type ".data ++ typeName.data ++ " string\n".data)
  match t.Values with
  | [] => pure ()
  | _ => do
    xprintf "const (\n".data
    genStringValues lintName typeName t.Values
    xprintf ")\n\n".data

def genStringEnums (lintName : String → String) : List Strings → GenM Unit
  | [] => pure ()
  | t :: rest => do
    genStringEnum lintName t
    genStringEnums lintName rest

/-- `generateTypes`: structs, then int enums, then string enums. -/
def generateTypesOf (lintName : String → String) (sts : List Struct) (ints : List Ints)
    (strs : List Strings) : GenM Unit := do
  genStructs lintName sts
  genIntEnums lintName ints
  genStringEnums lintName strs

/-- The parameter loop of `generateFunctions`: collects the rendered
`name type` parameter declarations and the parameter names. (The source
also accumulates a `paramTypes` slice it never reads.) -/
def genParams (whatParam : String) : List Arg → GenM (List String × List String)
  | [] => pure ([], [])
  | p :: rest => do
    let paramType ← goTypeM whatParam p.Typewords
    let paramName ← liftName (goLocalNameStr p.Name)
    let (ps, ns) ← genParams whatParam rest
    pure ((paramName ++ " " ++ paramType) :: ps, paramName :: ns)

/-- The returns loop of `generateFunctions`: accumulates returnVars,
returnTypes, returnNames and returnRefNames for slots `r0, r1, ...`. -/
def genReturns (whatParam : String) (i : Nat) :
    List Arg → GenM (String × String × String × List String)
  | [] => pure ("", "", "", [])
  | t :: rest => do
    let typ ← goTypeM whatParam t.Typewords
    let name := "r" ++ toString i
    let (vars, tys, nms, refs) ← genReturns whatParam (i + 1) rest
    pure ("\t\t" ++ name ++ " " ++ typ ++ "\n" ++ vars,
          typ ++ ", " ++ tys,
          name ++ ", " ++ nms,
          ("&" ++ name) :: refs)

def genFunction (lintName : String → String) (fn : Function) : GenM Unit := do
  let whatParam := "pararameter for " ++ fn.Name
  let (params, paramNames) ← genParams whatParam fn.Params
  let (returnVars0, returnTypes, returnNames, returnRefNames) ← genReturns whatParam 0 fn.Returns
  let returnVars :=
    if returnVars0 ≠ "" then "\tvar (\n" ++ returnVars0 ++ "\t)\n" else returnVars0
  _ ← xprintMultiline "" fn.Docs true
  let fname ← liftName (goExportedName lintName fn.Name)
  xprintf (("func (c *Client) " ++ fname ++ "(ctx context.Context, " ++
    String.intercalate ", " params ++ ") (" ++ returnTypes ++ "error) \x7b\n" ++
    returnVars ++ "\terr := c.call(ctx, \"" ++ fn.Name ++ "\", []interface\x7b\x7d\x7b" ++
    String.intercalate ", " paramNames ++ "\x7d, []interface\x7b\x7d\x7b" ++
    String.intercalate ", " returnRefNames ++ "\x7d)\n\treturn " ++ returnNames ++
    "err\n\x7d\n\n").data)

def genFunctions (lintName : String → String) : List Function → GenM Unit
  | [] => pure ()
  | fn :: rest => do
    genFunction lintName fn
    genFunctions lintName rest

mutual
/-- `generateSection`: types, then functions, then subsections. -/
def generateSection (lintName : String → String) : Section → GenM Unit
  | .mk _ _ _ fns secs sts ints strs => do
    generateTypesOf lintName sts ints strs
    genFunctions lintName fns
    generateSections lintName secs

def generateSections (lintName : String → String) : List Section → GenM Unit
  | [] => pure ()
  | s :: rest => do
    generateSection lintName s
    generateSections lintName rest
end

/-- The observable result of `Generate`: the text committed to the
destination writer, and whether the call returned nil, returned an error
(a recovered `genError`) or propagated a panic of another kind. -/
inductive GenOutcome where
  | ok
  | errRes (k : GenErrKind)
  | panicked (p : OtherPanic)
deriving DecidableEq, Repr

def GenOutcome.isPanicked : GenOutcome → Bool
  | .panicked _ => true
  | _ => false

structure GenResult where
  out : List Char
  outcome : GenOutcome
deriving Repr

/-- The body of `Generate` after JSON decoding: version check, validation
(`sherpadoc.Check`, an external collaborator modelled by the `check`
oracle), section docs, the fixed template, the section tree, and the final
`bout.Flush()` — which writes nothing and returns nil because `bout` was
never written to (`xprintf` prints to `out` directly). -/
def GenerateBody (lintName : String → String) (check : Section → Option String)
    (doc : Section) (packageName baseURL : String) : GenM Unit := do
  if doc.SherpadocVersion ≠ 1 then
    fun st => .error (.genErr (.versionErr doc.SherpadocVersion)) st
  else
    match check doc with
    | some msg => fun st => .error (.genErr (.checkErr msg)) st
    | none => do
      genSecDocs doc 0
      xprintf (preambleText packageName baseURL).data
      generateSection lintName doc
      pure ()

/-- `Generate` with its deferred recover: a `genError` panic becomes the
returned error, any other panic propagates. `decoded` is the result of the
external `json.NewDecoder(in).Decode(&doc)`. -/
def Generate (lintName : String → String) (wf : Nat → Bool) (check : Section → Option String)
    (decoded : Except String Section) (packageName baseURL : String) : GenResult :=
  match decoded with
  | .error _ => ⟨[], .errRes .jsonErr⟩
  | .ok doc =>
    match GenerateBody lintName check doc packageName baseURL ⟨[], 0, wf⟩ with
    | .ok _ st => ⟨st.out, .ok⟩
    | .error (.genErr k) st => ⟨st.out, .errRes k⟩
    | .error (.other p) st => ⟨st.out, .panicked p⟩

/-! ## Characterizing successful emission runs -/

/-- A destination writer that accepts every write. -/
def allOk : Nat → Bool := fun _ => true

/-- A leading comment block: every line as `indent// line`. -/
def commentBlock (indent : String) (lines : List (List Char)) : List Char :=
  (lines.map (fun l => indent.data ++ "// ".data ++ l ++ ['\n'])).flatten

/-- The trailing inline comment `xprintSingleline` prints for a singleton
line list (and the empty text it prints otherwise). -/
def inlineOf (ls : List (List Char)) : List Char :=
  match ls with
  | [l] => "  // ".data ++ l
  | _ => []

/-- What a single-line adaptive doc renders to when appended inline. -/
def inlineDoc (docs : String) : List Char := inlineOf (docLines docs.data)

/-- What adaptive-mode (`always = false`) leading docs render to: nothing
for a single line, the full comment block otherwise. -/
def adaptiveDocsBlock (indent : String) (docs : String) : List Char :=
  if (docLines docs.data).length = 1 then []
  else commentBlock indent (docLines docs.data)

/-- `Emits m a x`: on an all-accepting writer, `m` succeeds from every
state, returns `a`, and appends exactly `x` to the output. -/
def Emits {α : Type} (m : GenM α) (a : α) (x : List Char) : Prop :=
  ∀ o n, ∃ n', m ⟨o, n, allOk⟩ = .ok a ⟨o ++ x, n', allOk⟩

theorem emits_pure {α : Type} (a : α) : Emits (pure a) a [] := by
  intro o n
  exact ⟨n, by simp [Pure.pure, EStateM.pure]⟩

theorem emits_xprintf (s : List Char) : Emits (xprintf s) () s := by
  intro o n
  exact ⟨n + 1, by simp [xprintf, allOk]⟩

theorem emits_bind {α β : Type} {m : GenM α} {f : α → GenM β} {a : α} {x : List Char}
    {b : β} {y : List Char} (hm : Emits m a x) (hf : Emits (f a) b y) :
    Emits (m >>= f) b (x ++ y) := by
  intro o n
  obtain ⟨n1, h1⟩ := hm o n
  obtain ⟨n2, h2⟩ := hf (o ++ x) n1
  refine ⟨n2, ?_⟩
  simp only [Bind.bind, EStateM.bind, h1, h2, List.append_assoc]

theorem emits_congr {α : Type} {m : GenM α} {a : α} {x y : List Char}
    (h : Emits m a x) (hxy : x = y) : Emits m a y := hxy ▸ h

theorem emits_printLines (indent : String) (ls : List (List Char)) :
    Emits (printLines indent ls) () (commentBlock indent ls) := by
  induction ls with
  | nil => exact emits_congr (emits_pure ()) (by simp [commentBlock])
  | cons l rest ih =>
    exact emits_congr
      (emits_bind (emits_xprintf (indent.data ++ "// ".data ++ l ++ ['\n'])) ih)
      (by simp [commentBlock])

theorem emits_xprintMultiline_true (indent docs : String) :
    Emits (xprintMultiline indent docs true) (docLines docs.data)
      (commentBlock indent (docLines docs.data)) := by
  unfold xprintMultiline
  rw [if_neg (by simp)]
  exact emits_congr (emits_bind (emits_printLines indent (docLines docs.data))
    (emits_pure (docLines docs.data))) (by simp)

theorem emits_xprintMultiline_false (indent docs : String) :
    Emits (xprintMultiline indent docs false) (docLines docs.data)
      (adaptiveDocsBlock indent docs) := by
  by_cases h : (docLines docs.data).length = 1
  · unfold xprintMultiline
    rw [if_pos ⟨h, rfl⟩]
    exact emits_congr (emits_pure (docLines docs.data)) (by simp [adaptiveDocsBlock, h])
  · unfold xprintMultiline
    rw [if_neg (by simp [h])]
    exact emits_congr (emits_bind (emits_printLines indent (docLines docs.data))
      (emits_pure (docLines docs.data))) (by simp [adaptiveDocsBlock, h])

theorem emits_xprintSingleline (ls : List (List Char)) :
    Emits (xprintSingleline ls) () (inlineOf ls) := by
  match ls with
  | [] => exact emits_congr (emits_pure ()) rfl
  | [l] => exact emits_xprintf ("  // ".data ++ l)
  | l1 :: l2 :: rest => exact emits_congr (emits_pure ()) rfl

/-- C6: documentation with exactly one line renders in adaptive mode as no
leading block at all plus a trailing inline comment; documentation with two
or more lines renders as a leading block containing every line, in both
modes. -/
theorem c6_doc_modes (indent docs : String) (always : Bool) :
    ((docLines docs.data).length = 1 →
      Emits (xprintMultiline indent docs false) (docLines docs.data) [] ∧
      ∀ l, docLines docs.data = [l] →
        Emits (xprintSingleline (docLines docs.data)) () ("  // ".data ++ l)) ∧
    (2 ≤ (docLines docs.data).length →
      Emits (xprintMultiline indent docs always) (docLines docs.data)
        (commentBlock indent (docLines docs.data))) := by
  constructor
  · intro h1
    constructor
    · exact emits_congr (emits_xprintMultiline_false indent docs)
        (by simp [adaptiveDocsBlock, h1])
    · intro l hl
      exact emits_congr (emits_xprintSingleline (docLines docs.data))
        (by simp [inlineOf, hl])
  · intro h2
    cases always with
    | true => exact emits_xprintMultiline_true indent docs
    | false =>
      exact emits_congr (emits_xprintMultiline_false indent docs)
        (by
          have : (docLines docs.data).length ≠ 1 := by omega
          simp [adaptiveDocsBlock, this])

/-- C6 witness: "hello" (one line) and "a\nb" (two lines). -/
theorem c6_doc_modes_witness :
    (Emits (xprintMultiline "" "hello" false) (docLines "hello".data) [] ∧
     ∀ l, docLines "hello".data = [l] →
       Emits (xprintSingleline (docLines "hello".data)) () ("  // ".data ++ l)) ∧
    Emits (xprintMultiline "\t" "a\nb" true) (docLines "a\nb".data)
      (commentBlock "\t" (docLines "a\nb".data)) :=
  ⟨(c6_doc_modes "" "hello" false).1 (by decide),
   (c6_doc_modes "\t" "a\nb" true).2 (by decide)⟩

/-! ## Enum and struct-field emission, characterized -/

/-- The exported identifier (total form): upper-case the first character,
then the `lintName` initialism pass. -/
def exportedName (lintName : String → String) (name : String) : String :=
  match name.data with
  | [] => ""
  | c :: rest => lintName ⟨asciiUpper c :: rest⟩

theorem goExportedName_eq_some (lintName : String → String) (name : String) (h : name ≠ "") :
    goExportedName lintName name = some (exportedName lintName name) := by
  cases name with
  | mk data =>
    cases data with
    | nil => exact absurd rfl h
    | cons c rest => rfl

theorem emits_liftName (s : String) : Emits (liftName (some s)) s [] := emits_pure s

theorem emits_liftLast (tws : List String) (w : String) (h : tws.getLast? = some w) :
    Emits (liftLast tws) w [] := by
  unfold liftLast
  rw [h]
  exact emits_pure w

theorem emits_goTypeM (what : String) (tws : List String) (t : sherpaType)
    (h : parseType tws = .ok t) : Emits (goTypeM what tws) (GoType t) [] := by
  unfold goTypeM
  rw [h]
  exact emits_pure (GoType t)

/-- One int-enum constant line, as the spec describes it: adaptive docs,
then the exported value name, the type name and the declared literal value,
then the inline doc comment. -/
def specEnumValueInt (lintName : String → String) (typeName : String) (v : IntValue) :
    List Char :=
  adaptiveDocsBlock "\t" v.Docs ++ "\t".data ++ (exportedName lintName v.Name).data ++
  " ".data ++ typeName.data ++ " = ".data ++ (toString v.Value).data ++
  inlineDoc v.Docs ++ ['\n']

/-- One int-enum declaration: docs block, the named int type, and — only
when at least one value is declared — a const block holding every declared
value, in declared order. -/
def specIntEnumOut (lintName : String → String) (t : Ints) : List Char :=
  commentBlock "" (docLines t.Docs.data) ++ "type ".data ++
  (exportedName lintName t.Name).data ++ " int\n".data ++
  (match t.Values with
   | [] => []
   | _ => "const (\n".data ++
       (t.Values.map (specEnumValueInt lintName (exportedName lintName t.Name))).flatten ++
       ")\n\n".data)

/-- One string-enum constant line (quoted literal). -/
def specEnumValueStr (lintName : String → String) (typeName : String) (v : StringValue) :
    List Char :=
  adaptiveDocsBlock "\t" v.Docs ++ "\t".data ++ (exportedName lintName v.Name).data ++
  " ".data ++ typeName.data ++ " = ".data ++ goQuote v.Value ++
  inlineDoc v.Docs ++ ['\n']

/-- One string-enum declaration, same shape as `specIntEnumOut`. -/
def specStringEnumOut (lintName : String → String) (t : Strings) : List Char :=
  commentBlock "" (docLines t.Docs.data) ++ "type ".data ++
  (exportedName lintName t.Name).data ++ " string\n".data ++
  (match t.Values with
   | [] => []
   | _ => "const (\n".data ++
       (t.Values.map (specEnumValueStr lintName (exportedName lintName t.Name))).flatten ++
       ")\n\n".data)

theorem emits_genIntValue (lintName : String → String) (typeName : String) (v : IntValue)
    (h : v.Name ≠ "") :
    Emits (genIntValue lintName typeName v) () (specEnumValueInt lintName typeName v) := by
  unfold genIntValue
  rw [goExportedName_eq_some lintName v.Name h]
  exact emits_congr
    (emits_bind (emits_xprintMultiline_false "\t" v.Docs)
      (emits_bind (emits_liftName (exportedName lintName v.Name))
        (emits_bind (emits_xprintf _)
          (emits_bind (emits_xprintSingleline (docLines v.Docs.data))
            (emits_xprintf ['\n'])))))
    (by simp [specEnumValueInt, inlineDoc])

theorem emits_genIntValues (lintName : String → String) (typeName : String)
    (vs : List IntValue) (h : ∀ v ∈ vs, v.Name ≠ "") :
    Emits (genIntValues lintName typeName vs) ()
      ((vs.map (specEnumValueInt lintName typeName)).flatten) := by
  induction vs with
  | nil => exact emits_congr (emits_pure ()) (by simp)
  | cons v rest ih =>
    exact emits_congr
      (emits_bind (emits_genIntValue lintName typeName v (h v (by simp)))
        (ih (fun w hw => h w (by simp [hw]))))
      (by simp)

theorem emits_genIntEnum (lintName : String → String) (t : Ints) (hn : t.Name ≠ "")
    (hv : ∀ v ∈ t.Values, v.Name ≠ "") :
    Emits (genIntEnum lintName t) () (specIntEnumOut lintName t) := by
  unfold genIntEnum
  rw [goExportedName_eq_some lintName t.Name hn]
  cases hvals : t.Values with
  | nil =>
    exact emits_congr
      (emits_bind (emits_xprintMultiline_true "" t.Docs)
        (emits_bind (emits_liftName (exportedName lintName t.Name))
          (emits_bind (emits_xprintf _) (emits_pure ()))))
      (by simp [specIntEnumOut, hvals])
  | cons v vs =>
    exact emits_congr
      (emits_bind (emits_xprintMultiline_true "" t.Docs)
        (emits_bind (emits_liftName (exportedName lintName t.Name))
          (emits_bind (emits_xprintf _)
            (emits_bind (emits_xprintf _)
              (emits_bind (emits_genIntValues lintName (exportedName lintName t.Name)
                  (v :: vs) (hvals ▸ hv))
                (emits_xprintf _))))))
      (by simp [specIntEnumOut, hvals])

theorem emits_genStringValue (lintName : String → String) (typeName : String)
    (v : StringValue) (h : v.Name ≠ "") :
    Emits (genStringValue lintName typeName v) () (specEnumValueStr lintName typeName v) := by
  unfold genStringValue
  rw [goExportedName_eq_some lintName v.Name h]
  exact emits_congr
    (emits_bind (emits_xprintMultiline_false "\t" v.Docs)
      (emits_bind (emits_liftName (exportedName lintName v.Name))
        (emits_bind (emits_xprintf _)
          (emits_bind (emits_xprintSingleline (docLines v.Docs.data))
            (emits_xprintf ['\n'])))))
    (by simp [specEnumValueStr, inlineDoc])

theorem emits_genStringValues (lintName : String → String) (typeName : String)
    (vs : List StringValue) (h : ∀ v ∈ vs, v.Name ≠ "") :
    Emits (genStringValues lintName typeName vs) ()
      ((vs.map (specEnumValueStr lintName typeName)).flatten) := by
  induction vs with
  | nil => exact emits_congr (emits_pure ()) (by simp)
  | cons v rest ih =>
    exact emits_congr
      (emits_bind (emits_genStringValue lintName typeName v (h v (by simp)))
        (ih (fun w hw => h w (by simp [hw]))))
      (by simp)

theorem emits_genStringEnum (lintName : String → String) (t : Strings) (hn : t.Name ≠ "")
    (hv : ∀ v ∈ t.Values, v.Name ≠ "") :
    Emits (genStringEnum lintName t) () (specStringEnumOut lintName t) := by
  unfold genStringEnum
  rw [goExportedName_eq_some lintName t.Name hn]
  cases hvals : t.Values with
  | nil =>
    exact emits_congr
      (emits_bind (emits_xprintMultiline_true "" t.Docs)
        (emits_bind (emits_liftName (exportedName lintName t.Name))
          (emits_bind (emits_xprintf _) (emits_pure ()))))
      (by simp [specStringEnumOut, hvals])
  | cons v vs =>
    exact emits_congr
      (emits_bind (emits_xprintMultiline_true "" t.Docs)
        (emits_bind (emits_liftName (exportedName lintName t.Name))
          (emits_bind (emits_xprintf _)
            (emits_bind (emits_xprintf _)
              (emits_bind (emits_genStringValues lintName (exportedName lintName t.Name)
                  (v :: vs) (hvals ▸ hv))
                (emits_xprintf _))))))
      (by simp [specStringEnumOut, hvals])

/-- C7: an int-enum declaration emits its type line and, exactly when at
least one value is declared, a const block holding every declared value
with its declared literal, in declared order; string enums behave the same
with quoted text literals. -/
theorem c7_enum_blocks (lintName : String → String) (tI : Ints) (tS : Strings)
    (hIn : tI.Name ≠ "") (hIv : ∀ v ∈ tI.Values, v.Name ≠ "")
    (hSn : tS.Name ≠ "") (hSv : ∀ v ∈ tS.Values, v.Name ≠ "") :
    Emits (genIntEnum lintName tI) () (specIntEnumOut lintName tI) ∧
    Emits (genStringEnum lintName tS) () (specStringEnumOut lintName tS) :=
  ⟨emits_genIntEnum lintName tI hIn hIv, emits_genStringEnum lintName tS hSn hSv⟩

/-- C7 witness: a two-value int enum and a zero-value string enum. -/
theorem c7_enum_blocks_witness :
    Emits (genIntEnum (fun s => s) ⟨"Color", "", [⟨"Red", 1, ""⟩, ⟨"Blue", -2, ""⟩]⟩) ()
      (specIntEnumOut (fun s => s) ⟨"Color", "", [⟨"Red", 1, ""⟩, ⟨"Blue", -2, ""⟩]⟩) ∧
    Emits (genStringEnum (fun s => s) ⟨"Mode", "", []⟩) ()
      (specStringEnumOut (fun s => s) ⟨"Mode", "", []⟩) :=
  c7_enum_blocks (fun s => s) ⟨"Color", "", [⟨"Red", 1, ""⟩, ⟨"Blue", -2, ""⟩]⟩
    ⟨"Mode", "", []⟩ (by decide) (by decide) (by decide) (by decide)

/-! ## Struct-field tags (C4) -/

/-- The must-serialize-as-text test: the terminal (last) type token is
`int64s` or `uint64s`. -/
def isTextSerialized (tws : List String) : Bool :=
  tws.getLast? = some "int64s" || tws.getLast? = some "uint64s"

/-- The wire-name/hint annotation of a field as the spec describes it:
present exactly when the exported name differs from the schema name or the
type must serialize as text; carrying the schema name only in the former
case and the `,string` hint only in the latter. -/
def specFieldTag (gname : String) (f : Field) : List Char :=
  if gname ≠ f.Name ∨ isTextSerialized f.Typewords = true then
    (" `json:\"").data ++ (if gname ≠ f.Name then f.Name.data else []) ++
    (if isTextSerialized f.Typewords = true then ",string".data else []) ++ ("\"`").data
  else []

/-- The text `genFieldTag` appends, in its own terms. -/
def tagOut (gname fName jsonStr : String) : List Char :=
  if gname ≠ fName ∨ jsonStr ≠ "" then
    (" `json:\"").data ++ (if gname ≠ fName then fName.data else []) ++
    jsonStr.data ++ ("\"`").data
  else []

theorem emits_genFieldTag (gname fName jsonStr : String) :
    Emits (genFieldTag gname fName jsonStr) () (tagOut gname fName jsonStr) := by
  unfold genFieldTag tagOut
  by_cases hc : gname ≠ fName ∨ jsonStr ≠ ""
  · rw [if_pos hc, if_pos hc]
    by_cases hg : gname ≠ fName
    · rw [if_pos hg, if_pos hg]
      exact emits_congr
        (emits_bind (emits_xprintf _)
          (emits_bind (emits_xprintf _)
            (emits_bind (emits_xprintf _) (emits_xprintf _))))
        (by simp)
    · rw [if_neg hg, if_neg hg]
      exact emits_congr
        (emits_bind (emits_xprintf _)
          (emits_bind (emits_pure ())
            (emits_bind (emits_xprintf _) (emits_xprintf _))))
        (by simp)
  · rw [if_neg hc, if_neg hc]
    exact emits_congr (emits_pure ()) rfl

theorem tagOut_eq_spec (gname : String) (f : Field) (w : String)
    (hw : f.Typewords.getLast? = some w) :
    tagOut gname f.Name (if w = "int64s" ∨ w = "uint64s" then ",string" else "") =
      specFieldTag gname f := by
  by_cases hts : w = "int64s" ∨ w = "uint64s"
  · have h1 : isTextSerialized f.Typewords = true := by
      rcases hts with h | h <;> simp [isTextSerialized, hw, h]
    simp [tagOut, specFieldTag, hts, h1]
  · have h1 : isTextSerialized f.Typewords = false := by
      push_neg at hts
      simp [isTextSerialized, hw, hts.1, hts.2]
    simp [tagOut, specFieldTag, hts, h1]

theorem emits_genStructField (lintName : String → String) (tName : String) (f : Field)
    (t : sherpaType) (hn : f.Name ≠ "") (hp : parseType f.Typewords = .ok t) :
    Emits (genStructField lintName tName f) ()
      (adaptiveDocsBlock "\t" f.Docs ++ "\t".data ++ (exportedName lintName f.Name).data ++
       " ".data ++ (GoType t).data ++ specFieldTag (exportedName lintName f.Name) f ++
       inlineDoc f.Docs ++ ['\n']) := by
  have htw : f.Typewords ≠ [] := by
    intro hnil
    rw [hnil] at hp
    exact absurd hp (by simp [parseType])
  obtain ⟨w, hw⟩ : ∃ w, f.Typewords.getLast? = some w := by
    cases hlw : f.Typewords.getLast? with
    | none => exact absurd (List.getLast?_eq_none_iff.mp hlw) htw
    | some w => exact ⟨w, rfl⟩
  unfold genStructField
  rw [goExportedName_eq_some lintName f.Name hn]
  exact emits_congr
    (emits_bind (emits_xprintMultiline_false "\t" f.Docs)
      (emits_bind (emits_liftLast f.Typewords w hw)
        (emits_bind (emits_liftName (exportedName lintName f.Name))
          (emits_bind (emits_goTypeM _ f.Typewords t hp)
            (emits_bind (emits_xprintf _)
              (emits_bind (emits_genFieldTag (exportedName lintName f.Name) f.Name _)
                (emits_bind (emits_xprintSingleline (docLines f.Docs.data))
                  (emits_xprintf ['\n']))))))))
    (by
      rw [tagOut_eq_spec (exportedName lintName f.Name) f w hw]
      simp [inlineDoc])

/-- C4: an emitted struct field carries its json annotation exactly when
the derived exported identifier differs from the schema name or the
terminal type token is in the must-serialize-as-text subset
(int64s/uint64s, adding the `,string` hint); otherwise no annotation. -/
theorem c4_field_tag_iff (lintName : String → String) (tName : String) (f : Field)
    (t : sherpaType) (hn : f.Name ≠ "") (hp : parseType f.Typewords = .ok t) :
    Emits (genStructField lintName tName f) ()
      (adaptiveDocsBlock "\t" f.Docs ++ "\t".data ++ (exportedName lintName f.Name).data ++
       " ".data ++ (GoType t).data ++ specFieldTag (exportedName lintName f.Name) f ++
       inlineDoc f.Docs ++ ['\n']) ∧
    (specFieldTag (exportedName lintName f.Name) f = [] ↔
      ¬(exportedName lintName f.Name ≠ f.Name ∨ isTextSerialized f.Typewords = true)) := by
  refine ⟨emits_genStructField lintName tName f t hn hp, ?_⟩
  have hlit : ((" `json:\"") : String).data = [' ', '`', 'j', 's', 'o', 'n', ':', '"'] := rfl
  by_cases hc : exportedName lintName f.Name ≠ f.Name ∨ isTextSerialized f.Typewords = true
  · simp [specFieldTag, hc, hlit]
  · simp [specFieldTag, hc]

/-- C4 witness: the field `id` of type `int64s` (exported name `Id` under
the identity lint pass differs from `id`, and `int64s` needs the hint). -/
theorem c4_field_tag_iff_witness :
    Emits (genStructField (fun s => s) "T" ⟨"id", "", ["int64s"]⟩) ()
      (adaptiveDocsBlock "\t" "" ++ "\t".data ++
       (exportedName (fun s => s) "id").data ++ " ".data ++
       (GoType (.base "int64s")).data ++
       specFieldTag (exportedName (fun s => s) "id") ⟨"id", "", ["int64s"]⟩ ++
       inlineDoc "" ++ ['\n']) ∧
    (specFieldTag (exportedName (fun s => s) "id") ⟨"id", "", ["int64s"]⟩ = [] ↔
      ¬(exportedName (fun s => s) "id" ≠ "id" ∨ isTextSerialized ["int64s"] = true)) :=
  c4_field_tag_iff (fun s => s) "T" ⟨"id", "", ["int64s"]⟩ (.base "int64s")
    (by decide) (by decide)

/-! ## Whole-run results: version mismatch (C8) and partial output (C1) -/

/-- C8: for every decoded document whose schema version differs from the
single supported version 1, `Generate` fails with the version error before
anything is written to the destination: the committed output is empty. -/
theorem c8_version_mismatch (lintName : String → String) (wf : Nat → Bool)
    (check : Section → Option String) (doc : Section) (packageName baseURL : String)
    (h : doc.SherpadocVersion ≠ 1) :
    Generate lintName wf check (.ok doc) packageName baseURL =
      ⟨[], .errRes (.versionErr doc.SherpadocVersion)⟩ := by
  have hbody : GenerateBody lintName check doc packageName baseURL ⟨[], 0, wf⟩ =
      .error (.genErr (.versionErr doc.SherpadocVersion)) ⟨[], 0, wf⟩ := by
    unfold GenerateBody
    rw [if_pos h]
  show (match GenerateBody lintName check doc packageName baseURL ⟨[], 0, wf⟩ with
      | .ok _ st => ({ out := st.out, outcome := .ok } : GenResult)
      | .error (.genErr k) st => { out := st.out, outcome := .errRes k }
      | .error (.other p) st => { out := st.out, outcome := .panicked p }) =
    ⟨[], .errRes (.versionErr doc.SherpadocVersion)⟩
  rw [hbody]

/-- C8 witness: a document carrying version 2. -/
theorem c8_version_mismatch_witness :
    Generate (fun s => s) allOk (fun _ => none)
      (.ok (.mk 2 "" "" [] [] [] [] [])) "api" "http://localhost/api/" =
      ⟨[], .errRes (.versionErr (Section.SherpadocVersion (.mk 2 "" "" [] [] [] [] [])))⟩ :=
  c8_version_mismatch (fun s => s) allOk (fun _ => none) (.mk 2 "" "" [] [] [] [] [])
    "api" "http://localhost/api/" (by decide)

/-- A version-1 document with one struct `T` whose field `x` has the
malformed type token sequence `["x", "y"]` (an identifier followed by a
leftover token). -/
def docC1 : Section :=
  .mk 1 "Example" "Example API." [] [] [⟨"T", "", [⟨"x", "", ["x", "y"]⟩]⟩] [] []

/-- C1 (code bug): generation failures partway through traversal DO leave
partial output on the destination writer, because `xprintf` prints to `out`
directly while the buffered writer `bout` is created, never written to, and
flushed empty. First conjunct pair: on `docC1` the malformed type aborts
generation with an error, yet the section docs and the whole package
preamble have already been committed (`out ≠ []`). Second pair: a write
error on the second write likewise aborts while the first write's text
stays committed. -/
theorem c1_partial_output_on_failure :
    (Generate (fun s => s) allOk (fun _ => none) (.ok docC1) "api"
        "http://localhost/api/").outcome =
      .errRes (.typeErr "field x for type T"
        ⟨"leftover tokens after identifier type", ["y"]⟩) ∧
    (Generate (fun s => s) allOk (fun _ => none) (.ok docC1) "api"
        "http://localhost/api/").out ≠ [] ∧
    (Generate (fun s => s) (fun n => decide (n < 1)) (fun _ => none) (.ok docC1) "api"
        "http://localhost/api/").outcome = .errRes .writeErr ∧
    (Generate (fun s => s) (fun n => decide (n < 1)) (fun _ => none) (.ok docC1) "api"
        "http://localhost/api/").out = ("// Example API.\n").data := by
  refine ⟨by decide, by decide, by decide, by decide⟩

/-! ## No internally raised generation failure escapes as a panic (C10) -/

/-- `m` never fails with a non-`genError` panic. -/
def NoOther {α : Type} (m : GenM α) : Prop :=
  ∀ st p st', m st ≠ .error (.other p) st'

theorem noOther_pure {α : Type} (a : α) : NoOther (pure a : GenM α) := by
  intro st p st' h
  simp [Pure.pure, EStateM.pure] at h

theorem noOther_bind {α β : Type} {m : GenM α} {f : α → GenM β}
    (hm : NoOther m) (hf : ∀ a, NoOther (f a)) : NoOther (m >>= f) := by
  intro st p st' h
  simp only [Bind.bind, EStateM.bind] at h
  cases hm0 : m st with
  | ok a s1 =>
    rw [hm0] at h
    exact hf a s1 p st' h
  | error e s1 =>
    rw [hm0] at h
    have h' : (EStateM.Result.error e s1 : EStateM.Result GenPanic GSt β) =
        .error (.other p) st' := h
    injection h' with he hs
    subst he
    exact hm st p s1 hm0

theorem noOther_errGen (k : GenErrKind) :
    NoOther (fun st => (EStateM.Result.error (.genErr k) st : EStateM.Result GenPanic GSt Unit)) := by
  intro st p st' h
  simp at h

theorem noOther_xprintf (s : List Char) : NoOther (xprintf s) := by
  intro st p st' h
  unfold xprintf at h
  split at h <;> simp at h

theorem noOther_liftName {o : Option String} {s : String} (h : o = some s) :
    NoOther (liftName o) := by
  rw [h]
  exact noOther_pure s

theorem noOther_liftLast {tws : List String} {w : String} (h : tws.getLast? = some w) :
    NoOther (liftLast tws) := by
  unfold liftLast
  rw [h]
  exact noOther_pure w

theorem noOther_goTypeM (what : String) (tws : List String) : NoOther (goTypeM what tws) := by
  unfold goTypeM
  split
  · exact noOther_pure _
  · intro st p st' h
    simp at h

theorem noOther_printLines (indent : String) (ls : List (List Char)) :
    NoOther (printLines indent ls) := by
  induction ls with
  | nil => exact noOther_pure ()
  | cons l rest ih => exact noOther_bind (noOther_xprintf _) (fun _ => ih)

theorem noOther_xprintMultiline (indent docs : String) (always : Bool) :
    NoOther (xprintMultiline indent docs always) := by
  have hred : xprintMultiline indent docs always =
      if (docLines docs.data).length = 1 ∧ always = false then pure (docLines docs.data)
      else printLines indent (docLines docs.data) >>= fun _ => pure (docLines docs.data) := rfl
  rw [hred]
  split
  · exact noOther_pure _
  · exact noOther_bind (noOther_printLines _ _) (fun _ => noOther_pure _)

theorem noOther_xprintSingleline (ls : List (List Char)) : NoOther (xprintSingleline ls) := by
  match ls with
  | [] => exact noOther_pure ()
  | [l] => exact noOther_xprintf _
  | l1 :: l2 :: rest => exact noOther_pure ()

theorem noOther_genFieldTag (gname fName jsonStr : String) :
    NoOther (genFieldTag gname fName jsonStr) := by
  unfold genFieldTag
  split
  · refine noOther_bind (noOther_xprintf _) (fun _ => ?_)
    refine noOther_bind ?_ (fun _ => ?_)
    · split
      · exact noOther_xprintf _
      · exact noOther_pure ()
    · exact noOther_bind (noOther_xprintf _) (fun _ => noOther_xprintf _)
  · exact noOther_pure ()

/-- The local identifier (total form), char level. -/
def localName (name : String) : String :=
  match name.data with
  | [] => ""
  | c :: rest => ⟨asciiLower c :: rest⟩

theorem goLocalNameStr_eq_some (name : String) (h : name ≠ "") :
    goLocalNameStr name = some (localName name) := by
  cases name with
  | mk data =>
    cases data with
    | nil => exact absurd rfl h
    | cons c rest => rfl

/-- Safety of the names and slices the generator indexes without checking:
these are the only sources of non-`genError` panics. -/
def fieldSafe (f : Field) : Bool := !(f.Name == "") && !f.Typewords.isEmpty

def structSafe (t : Struct) : Bool := !(t.Name == "") && t.Fields.all fieldSafe

def intsSafe (t : Ints) : Bool := !(t.Name == "") && t.Values.all (fun v => !(v.Name == ""))

def stringsSafe (t : Strings) : Bool := !(t.Name == "") && t.Values.all (fun v => !(v.Name == ""))

def fnSafe (fn : Function) : Bool := !(fn.Name == "") && fn.Params.all (fun p => !(p.Name == ""))

mutual
def docSafe : Section → Bool
  | .mk _ _ _ fns secs sts ints strs =>
    fns.all fnSafe && sts.all structSafe && ints.all intsSafe &&
    strs.all stringsSafe && docSafeList secs

def docSafeList : List Section → Bool
  | [] => true
  | s :: rest => docSafe s && docSafeList rest
end

theorem noOther_genStructField (lintName : String → String) (tName : String) (f : Field)
    (h : fieldSafe f = true) : NoOther (genStructField lintName tName f) := by
  have hn : f.Name ≠ "" := by
    simp [fieldSafe] at h
    exact h.1
  have htw : f.Typewords ≠ [] := by
    simp [fieldSafe, List.isEmpty_iff] at h
    exact h.2
  obtain ⟨w, hw⟩ : ∃ w, f.Typewords.getLast? = some w := by
    cases hlw : f.Typewords.getLast? with
    | none => exact absurd (List.getLast?_eq_none_iff.mp hlw) htw
    | some w => exact ⟨w, rfl⟩
  unfold genStructField
  refine noOther_bind (noOther_xprintMultiline _ _ _) (fun lines => ?_)
  refine noOther_bind (noOther_liftLast hw) (fun lastWord => ?_)
  refine noOther_bind (noOther_liftName (goExportedName_eq_some lintName f.Name hn))
    (fun gname => ?_)
  refine noOther_bind (noOther_goTypeM _ _) (fun typ => ?_)
  refine noOther_bind (noOther_xprintf _) (fun _ => ?_)
  refine noOther_bind (noOther_genFieldTag _ _ _) (fun _ => ?_)
  exact noOther_bind (noOther_xprintSingleline _) (fun _ => noOther_xprintf _)

theorem noOther_genFields (lintName : String → String) (tName : String) (fs : List Field)
    (h : ∀ f ∈ fs, fieldSafe f = true) : NoOther (genFields lintName tName fs) := by
  induction fs with
  | nil => exact noOther_pure ()
  | cons f rest ih =>
    exact noOther_bind (noOther_genStructField lintName tName f (h f (by simp)))
      (fun _ => ih (fun g hg => h g (by simp [hg])))

theorem noOther_genStruct (lintName : String → String) (t : Struct)
    (h : structSafe t = true) : NoOther (genStruct lintName t) := by
  have hn : t.Name ≠ "" := by
    simp [structSafe] at h
    exact h.1
  have hf : ∀ f ∈ t.Fields, fieldSafe f = true := by
    simp [structSafe] at h
    exact h.2
  unfold genStruct
  refine noOther_bind (noOther_xprintMultiline _ _ _) (fun _ => ?_)
  refine noOther_bind (noOther_liftName (goExportedName_eq_some lintName t.Name hn))
    (fun tn => ?_)
  refine noOther_bind (noOther_xprintf _) (fun _ => ?_)
  exact noOther_bind (noOther_genFields lintName t.Name t.Fields hf)
    (fun _ => noOther_xprintf _)

theorem noOther_genStructs (lintName : String → String) (ts : List Struct)
    (h : ∀ t ∈ ts, structSafe t = true) : NoOther (genStructs lintName ts) := by
  induction ts with
  | nil => exact noOther_pure ()
  | cons t rest ih =>
    exact noOther_bind (noOther_genStruct lintName t (h t (by simp)))
      (fun _ => ih (fun u hu => h u (by simp [hu])))

theorem noOther_genIntValue (lintName : String → String) (typeName : String) (v : IntValue)
    (h : v.Name ≠ "") : NoOther (genIntValue lintName typeName v) := by
  unfold genIntValue
  refine noOther_bind (noOther_xprintMultiline _ _ _) (fun lines => ?_)
  refine noOther_bind (noOther_liftName (goExportedName_eq_some lintName v.Name h))
    (fun vn => ?_)
  refine noOther_bind (noOther_xprintf _) (fun _ => ?_)
  exact noOther_bind (noOther_xprintSingleline _) (fun _ => noOther_xprintf _)

theorem noOther_genIntValues (lintName : String → String) (typeName : String)
    (vs : List IntValue) (h : ∀ v ∈ vs, v.Name ≠ "") :
    NoOther (genIntValues lintName typeName vs) := by
  induction vs with
  | nil => exact noOther_pure ()
  | cons v rest ih =>
    exact noOther_bind (noOther_genIntValue lintName typeName v (h v (by simp)))
      (fun _ => ih (fun u hu => h u (by simp [hu])))

theorem noOther_genIntEnum (lintName : String → String) (t : Ints)
    (h : intsSafe t = true) : NoOther (genIntEnum lintName t) := by
  have hn : t.Name ≠ "" := by
    simp [intsSafe] at h
    exact h.1
  have hv : ∀ v ∈ t.Values, v.Name ≠ "" := by
    simp [intsSafe] at h
    exact h.2
  unfold genIntEnum
  refine noOther_bind (noOther_xprintMultiline _ _ _) (fun _ => ?_)
  refine noOther_bind (noOther_liftName (goExportedName_eq_some lintName t.Name hn))
    (fun typeName => ?_)
  refine noOther_bind (noOther_xprintf _) (fun _ => ?_)
  cases hvals : t.Values with
  | nil => exact noOther_pure ()
  | cons v vs =>
    refine noOther_bind (noOther_xprintf _) (fun _ => ?_)
    refine noOther_bind (noOther_genIntValues lintName typeName (v :: vs) ?_)
      (fun _ => noOther_xprintf _)
    intro u hu
    exact hv u (by rw [hvals]; exact hu)

theorem noOther_genIntEnums (lintName : String → String) (ts : List Ints)
    (h : ∀ t ∈ ts, intsSafe t = true) : NoOther (genIntEnums lintName ts) := by
  induction ts with
  | nil => exact noOther_pure ()
  | cons t rest ih =>
    exact noOther_bind (noOther_genIntEnum lintName t (h t (by simp)))
      (fun _ => ih (fun u hu => h u (by simp [hu])))

theorem noOther_genStringValue (lintName : String → String) (typeName : String)
    (v : StringValue) (h : v.Name ≠ "") : NoOther (genStringValue lintName typeName v) := by
  unfold genStringValue
  refine noOther_bind (noOther_xprintMultiline _ _ _) (fun lines => ?_)
  refine noOther_bind (noOther_liftName (goExportedName_eq_some lintName v.Name h))
    (fun vn => ?_)
  refine noOther_bind (noOther_xprintf _) (fun _ => ?_)
  exact noOther_bind (noOther_xprintSingleline _) (fun _ => noOther_xprintf _)

theorem noOther_genStringValues (lintName : String → String) (typeName : String)
    (vs : List StringValue) (h : ∀ v ∈ vs, v.Name ≠ "") :
    NoOther (genStringValues lintName typeName vs) := by
  induction vs with
  | nil => exact noOther_pure ()
  | cons v rest ih =>
    exact noOther_bind (noOther_genStringValue lintName typeName v (h v (by simp)))
      (fun _ => ih (fun u hu => h u (by simp [hu])))

theorem noOther_genStringEnum (lintName : String → String) (t : Strings)
    (h : stringsSafe t = true) : NoOther (genStringEnum lintName t) := by
  have hn : t.Name ≠ "" := by
    simp [stringsSafe] at h
    exact h.1
  have hv : ∀ v ∈ t.Values, v.Name ≠ "" := by
    simp [stringsSafe] at h
    exact h.2
  unfold genStringEnum
  refine noOther_bind (noOther_xprintMultiline _ _ _) (fun _ => ?_)
  refine noOther_bind (noOther_liftName (goExportedName_eq_some lintName t.Name hn))
    (fun typeName => ?_)
  refine noOther_bind (noOther_xprintf _) (fun _ => ?_)
  cases hvals : t.Values with
  | nil => exact noOther_pure ()
  | cons v vs =>
    refine noOther_bind (noOther_xprintf _) (fun _ => ?_)
    refine noOther_bind (noOther_genStringValues lintName typeName (v :: vs) ?_)
      (fun _ => noOther_xprintf _)
    intro u hu
    exact hv u (by rw [hvals]; exact hu)

theorem noOther_genStringEnums (lintName : String → String) (ts : List Strings)
    (h : ∀ t ∈ ts, stringsSafe t = true) : NoOther (genStringEnums lintName ts) := by
  induction ts with
  | nil => exact noOther_pure ()
  | cons t rest ih =>
    exact noOther_bind (noOther_genStringEnum lintName t (h t (by simp)))
      (fun _ => ih (fun u hu => h u (by simp [hu])))

theorem noOther_generateTypesOf (lintName : String → String) (sts : List Struct)
    (ints : List Ints) (strs : List Strings)
    (h1 : ∀ t ∈ sts, structSafe t = true) (h2 : ∀ t ∈ ints, intsSafe t = true)
    (h3 : ∀ t ∈ strs, stringsSafe t = true) :
    NoOther (generateTypesOf lintName sts ints strs) := by
  unfold generateTypesOf
  refine noOther_bind (noOther_genStructs lintName sts h1) (fun _ => ?_)
  exact noOther_bind (noOther_genIntEnums lintName ints h2)
    (fun _ => noOther_genStringEnums lintName strs h3)

theorem noOther_genParams (whatParam : String) (ps : List Arg)
    (h : ∀ p ∈ ps, p.Name ≠ "") : NoOther (genParams whatParam ps) := by
  induction ps with
  | nil => exact noOther_pure _
  | cons p rest ih =>
    refine noOther_bind (noOther_goTypeM _ _) (fun paramType => ?_)
    refine noOther_bind (noOther_liftName (goLocalNameStr_eq_some p.Name (h p (by simp))))
      (fun paramName => ?_)
    exact noOther_bind (ih (fun q hq => h q (by simp [hq]))) (fun _ => noOther_pure _)

theorem noOther_genReturns (whatParam : String) (i : Nat) (rs : List Arg) :
    NoOther (genReturns whatParam i rs) := by
  induction rs generalizing i with
  | nil => exact noOther_pure _
  | cons r rest ih =>
    refine noOther_bind (noOther_goTypeM _ _) (fun typ => ?_)
    exact noOther_bind (ih (i + 1)) (fun _ => noOther_pure _)

theorem noOther_genFunction (lintName : String → String) (fn : Function)
    (h : fnSafe fn = true) : NoOther (genFunction lintName fn) := by
  have hn : fn.Name ≠ "" := by
    simp [fnSafe] at h
    exact h.1
  have hp : ∀ p ∈ fn.Params, p.Name ≠ "" := by
    simp [fnSafe] at h
    exact h.2
  unfold genFunction
  refine noOther_bind (noOther_genParams _ fn.Params hp) (fun pr => ?_)
  refine noOther_bind (noOther_genReturns _ 0 fn.Returns) (fun rr => ?_)
  refine noOther_bind (noOther_xprintMultiline _ _ _) (fun _ => ?_)
  refine noOther_bind (noOther_liftName (goExportedName_eq_some lintName fn.Name hn))
    (fun fname => ?_)
  exact noOther_xprintf _

theorem noOther_genFunctions (lintName : String → String) (fns : List Function)
    (h : ∀ fn ∈ fns, fnSafe fn = true) : NoOther (genFunctions lintName fns) := by
  induction fns with
  | nil => exact noOther_pure ()
  | cons fn rest ih =>
    exact noOther_bind (noOther_genFunction lintName fn (h fn (by simp)))
      (fun _ => ih (fun g hg => h g (by simp [hg])))

mutual
theorem noOther_genSecDocs (sec : Section) (depth : Nat) :
    NoOther (genSecDocs sec depth) := by
  cases sec with
  | mk v n d fns secs sts ints strs =>
    exact noOther_bind (noOther_xprintMultiline _ _ _)
      (fun _ => noOther_genSubsecsDocs secs (depth + 1))

theorem noOther_genSubsecsDocs (secs : List Section) (depth : Nat) :
    NoOther (genSubsecsDocs secs depth) := by
  cases secs with
  | nil => exact noOther_pure ()
  | cons sub rest =>
    exact noOther_bind (noOther_xprintf _)
      (fun _ => noOther_bind (noOther_genSecDocs sub depth)
        (fun _ => noOther_genSubsecsDocs rest depth))
end

mutual
theorem noOther_generateSection (lintName : String → String) (sec : Section)
    (h : docSafe sec = true) : NoOther (generateSection lintName sec) := by
  cases sec with
  | mk v n d fns secs sts ints strs =>
    simp only [docSafe, Bool.and_eq_true] at h
    refine noOther_bind (noOther_generateTypesOf lintName sts ints strs ?_ ?_ ?_)
      (fun _ => ?_)
    · exact fun t ht => List.all_eq_true.mp h.1.1.1.2 t ht
    · exact fun t ht => List.all_eq_true.mp h.1.1.2 t ht
    · exact fun t ht => List.all_eq_true.mp h.1.2 t ht
    refine noOther_bind (noOther_genFunctions lintName fns ?_) (fun _ => ?_)
    · exact fun fn hfn => List.all_eq_true.mp h.1.1.1.1 fn hfn
    exact noOther_generateSections lintName secs h.2

theorem noOther_generateSections (lintName : String → String) (secs : List Section)
    (h : docSafeList secs = true) : NoOther (generateSections lintName secs) := by
  cases secs with
  | nil => exact noOther_pure ()
  | cons s rest =>
    simp only [docSafeList, Bool.and_eq_true] at h
    exact noOther_bind (noOther_generateSection lintName s h.1)
      (fun _ => noOther_generateSections lintName rest h.2)
end

theorem noOther_GenerateBody (lintName : String → String) (check : Section → Option String)
    (doc : Section) (packageName baseURL : String) (h : docSafe doc = true) :
    NoOther (GenerateBody lintName check doc packageName baseURL) := by
  unfold GenerateBody
  split
  · exact noOther_errGen _
  · split
    · exact noOther_errGen _
    · refine noOther_bind (noOther_genSecDocs doc 0) (fun _ => ?_)
      refine noOther_bind (noOther_xprintf _) (fun _ => ?_)
      exact noOther_bind (noOther_generateSection lintName doc h)
        (fun _ => noOther_pure ())

theorem Generate_ok_case (lintName : String → String) (wf : Nat → Bool)
    (check : Section → Option String) (doc : Section) (packageName baseURL : String) :
    Generate lintName wf check (.ok doc) packageName baseURL =
      (match GenerateBody lintName check doc packageName baseURL ⟨[], 0, wf⟩ with
       | .ok _ st => ({ out := st.out, outcome := .ok } : GenResult)
       | .error (.genErr k) st => { out := st.out, outcome := .errRes k }
       | .error (.other p) st => { out := st.out, outcome := .panicked p }) := rfl

/-- C10: every internally raised generation failure (decode failure,
version mismatch, validation failure, malformed type, write error) is
returned as an error result; on documents without the empty-name/empty-slice
pathologies that raise Go runtime panics, no panic escapes `Generate`, for
every writer behavior and validation outcome. -/
theorem c10_no_internal_panic (lintName : String → String) (wf : Nat → Bool)
    (check : Section → Option String) (decoded : Except String Section)
    (packageName baseURL : String)
    (h : ∀ doc, decoded = .ok doc → docSafe doc = true) :
    (Generate lintName wf check decoded packageName baseURL).outcome.isPanicked = false := by
  cases decoded with
  | error e => rfl
  | ok doc =>
    have hno := noOther_GenerateBody lintName check doc packageName baseURL (h doc rfl)
    rw [Generate_ok_case]
    cases hb : GenerateBody lintName check doc packageName baseURL ⟨[], 0, wf⟩ with
    | ok a st => rfl
    | error p st =>
      cases p with
      | genErr k => rfl
      | other q => exact absurd hb (hno ⟨[], 0, wf⟩ q st)

/-- C10 witness: a safe document exercising structs, enums and functions:
no panic escapes. -/
theorem c10_no_internal_panic_witness :
    (Generate (fun s => s) allOk (fun _ => none)
      (.ok (.mk 1 "S" "docs"
        [⟨"fn", "", [⟨"p", ["int64"]⟩], [⟨"r", ["string"]⟩]⟩] []
        [⟨"T", "", [⟨"x", "", ["string"]⟩]⟩]
        [⟨"I", "", [⟨"A", 1, ""⟩]⟩]
        [⟨"E", "", [⟨"V", "val", ""⟩]⟩]))
      "p" "http://u/").outcome.isPanicked = false :=
  c10_no_internal_panic (fun s => s) allOk (fun _ => none) _ "p" "http://u/"
    (by
      intro doc hd
      cases hd
      decide)

end Sherpago
